import Mathlib

/-!
Shallow embedding of the request-processing core of the repository
(`starlette` datastructures, middleware, and application builder), with
theorems checking the natural-language specification against the code.

Python dicts are modelled as insertion-ordered association lists with
unique keys (`pyGet?` / `pyInsert` / Python `dict` construction as a left
fold of inserts), mirroring CPython's ordered-dict semantics.  Byte
strings (`bytes`) are lists of byte values.
-/

universe u v

variable {α : Type u} {β : Type v}

/-- Python `d[k]` / `d.get(k)` on an association list: first match. -/
def pyGet? [DecidableEq α] : List (α × β) → α → Option β
  | [], _ => none
  | p :: rest, k => if p.1 = k then some p.2 else pyGet? rest k

/-- Python `d[k] = v` on a dict modelled as an association list: update the
value in place if the key exists (keeping its position), else append. -/
def pyInsert [DecidableEq α] : List (α × β) → α → β → List (α × β)
  | [], k, v => [(k, v)]
  | p :: rest, k, v => if p.1 = k then (p.1, v) :: rest else p :: pyInsert rest k v

/-- Python list comprehension `[(k, v) for (k, v) in l if k != key]`. -/
def removeKey [DecidableEq α] : List (α × β) → α → List (α × β)
  | [], _ => []
  | p :: rest, k => if p.1 = k then removeKey rest k else p :: removeKey rest k

/-- Python list comprehension `[v for (k, v) in l if k == key]`. -/
def keepKey [DecidableEq α] : List (α × β) → α → List β
  | [], _ => []
  | p :: rest, k => if p.1 = k then p.2 :: keepKey rest k else keepKey rest k

/-- Value of the last pair with the given key, if any. -/
def lastVal [DecidableEq α] : List (α × β) → α → Option β
  | [], _ => none
  | p :: rest, k =>
    match lastVal rest k with
    | some w => some w
    | none => if p.1 = k then some p.2 else none

/-- Python dict construction `{k: v for (k, v) in items}` (first position,
last value wins), as a left fold of inserts starting from the empty dict. -/
def pyFromList [DecidableEq α] (items : List (α × β)) : List (α × β) :=
  items.foldl (fun d p => pyInsert d p.1 p.2) []

/-- Python `d.update(other)` for dicts: insert every pair of `other`. -/
def pyDictUpdate [DecidableEq α] (d other : List (α × β)) : List (α × β) :=
  other.foldl (fun acc p => pyInsert acc p.1 p.2) d

/-- Python list comprehension
`[(k, v) for (k, v) in l if k not in keys(d)]`. -/
def removeKeysIn [DecidableEq α] : List (α × β) → List (α × β) → List (α × β)
  | [], _ => []
  | p :: rest, d =>
    if (pyGet? d p.1).isSome then removeKeysIn rest d else p :: removeKeysIn rest d

/-- Embedding of `starlette.datastructures.MultiDict` /
`ImmutableMultiDict`: the insertion-ordered pair list `_list` together
with the derived Python dict `_dict`. -/
structure MultiDict (α : Type u) (β : Type v) where
  _list : List (α × β)
  _dict : List (α × β)
  deriving DecidableEq

namespace MultiDict

variable [DecidableEq α]

/-- `ImmutableMultiDict.__init__` from a list of pairs:
`self._dict = {k: v for k, v in _items}; self._list = _items`. -/
def fromList (items : List (α × β)) : MultiDict α β :=
  { _list := items, _dict := pyFromList items }

/-- `ImmutableMultiDict.getlist`. -/
def getlist (m : MultiDict α β) (k : α) : List β :=
  keepKey m._list k

/-- `ImmutableMultiDict.multi_items`: `list(self._list)`. -/
def multi_items (m : MultiDict α β) : List (α × β) :=
  m._list

/-- `ImmutableMultiDict.__getitem__`: `self._dict[key]` (KeyError as
`none`). -/
def getitem? (m : MultiDict α β) (k : α) : Option β :=
  pyGet? m._dict k

/-- `ImmutableMultiDict.__contains__`: `key in self._dict`. -/
def containsKey (m : MultiDict α β) (k : α) : Bool :=
  (pyGet? m._dict k).isSome

/-- `MultiDict.setlist`: on an empty value list `self.pop(key, None)`,
otherwise filter the key out of `_list`, append the new pairs, and point
`_dict[key]` at the last value. -/
def setlist (m : MultiDict α β) (k : α) (values : List β) : MultiDict α β :=
  match values with
  | [] => { _list := removeKey m._list k, _dict := removeKey m._dict k }
  | v :: vs =>
      { _list := removeKey m._list k ++ (v :: vs).map (fun w => (k, w)),
        _dict := pyInsert m._dict k ((v :: vs).getLast (by simp)) }

/-- `MultiDict.__setitem__`: `self.setlist(key, [value])`. -/
def setitem (m : MultiDict α β) (k : α) (v : β) : MultiDict α β :=
  m.setlist k [v]

/-- `MultiDict.__delitem__`: filter the key out of `_list`, then
`del self._dict[key]` (on a missing key the dict is left unchanged and
the KeyError propagates after the list was already reassigned). -/
def delitem (m : MultiDict α β) (k : α) : MultiDict α β :=
  { _list := removeKey m._list k, _dict := removeKey m._dict k }

/-- `MultiDict.pop(key, default)`: same state change as `__delitem__`
(the default makes `dict.pop` total). -/
def popKey (m : MultiDict α β) (k : α) : MultiDict α β :=
  { _list := removeKey m._list k, _dict := removeKey m._dict k }

/-- `MultiDict.popitem`: `self._dict.popitem()` removes the most recently
inserted dict entry, then all pairs with that key leave `_list`; on an
empty dict the KeyError leaves the state unchanged. -/
def popitem (m : MultiDict α β) : MultiDict α β :=
  match m._dict.getLast? with
  | none => m
  | some p => { _list := removeKey m._list p.1, _dict := m._dict.dropLast }

/-- `MultiDict.poplist`: reads the values then delegates to `pop`. -/
def poplist (m : MultiDict α β) (k : α) : MultiDict α β :=
  m.popKey k

/-- `MultiDict.clear`. -/
def clearAll (_m : MultiDict α β) : MultiDict α β :=
  { _list := [], _dict := [] }

/-- `MultiDict.setdefault`: only when the key is absent, append `(key,
default)` to both the dict and the list. -/
def setdefault (m : MultiDict α β) (k : α) (d : β) : MultiDict α β :=
  if (pyGet? m._dict k).isSome then m
  else { _list := m._list ++ [(k, d)], _dict := pyInsert m._dict k d }

/-- `MultiDict.append`: `self._list.append((key, value));
self._dict[key] = value`. -/
def appendPair (m : MultiDict α β) (k : α) (v : β) : MultiDict α β :=
  { _list := m._list ++ [(k, v)], _dict := pyInsert m._dict k v }

/-- `MultiDict.update(items)`: build `value = MultiDict(items)`, keep the
pairs whose key is not among `value`'s keys, append `value.multi_items()`,
and `self._dict.update(value)`. -/
def updateItems (m : MultiDict α β) (items : List (α × β)) : MultiDict α β :=
  let value := fromList items
  { _list := removeKeysIn m._list value._dict ++ value.multi_items,
    _dict := pyDictUpdate m._dict value._dict }

end MultiDict

/-- Mutations of a `MultiDict`, one constructor per mutating method. -/
inductive Mut (α : Type u) (β : Type v) where
  | set (k : α) (v : β)
  | setlist (k : α) (vs : List β)
  | append (k : α) (v : β)
  | setdefault (k : α) (d : β)
  | update (items : List (α × β))
  | pop (k : α)
  | popitem
  | poplist (k : α)
  | delete (k : α)
  | clear

/-- Apply one mutation. -/
def applyMut [DecidableEq α] (m : MultiDict α β) : Mut α β → MultiDict α β
  | .set k v => m.setitem k v
  | .setlist k vs => m.setlist k vs
  | .append k v => m.appendPair k v
  | .setdefault k d => m.setdefault k d
  | .update items => m.updateItems items
  | .pop k => m.popKey k
  | .popitem => m.popitem
  | .poplist k => m.poplist k
  | .delete k => m.delitem k
  | .clear => m.clearAll

/-- Apply a sequence of mutations in order. -/
def applyMuts [DecidableEq α] (m : MultiDict α β) (muts : List (Mut α β)) :
    MultiDict α β :=
  muts.foldl applyMut m

/-- Invariant of the multi-dict: the derived dict answers every lookup
with the value of the last pair carrying that key in `_list`, and the
dict's keys are unique. -/
def MDInv [DecidableEq α] (m : MultiDict α β) : Prop :=
  (∀ k, pyGet? m._dict k = lastVal m._list k) ∧ (m._dict.map Prod.fst).Nodup

section SortedEq

variable [LinearOrder α] [LinearOrder β]

/-- Python tuple comparison `(k1, v1) <= (k2, v2)`: lexicographic on the
components, as used by `sorted` on the pair lists. -/
def pyPairLe (p q : α × β) : Bool :=
  decide (p.1 < q.1) || (decide (p.1 = q.1) && decide (p.2 ≤ q.2))

/-- Python `sorted` on a list of pairs. -/
def pySorted (l : List (α × β)) : List (α × β) :=
  l.mergeSort pyPairLe

/-- `ImmutableMultiDict.__eq__` between two multi-dicts of the same class:
`sorted(self._list) == sorted(other._list)`. -/
def mdEq (m1 m2 : MultiDict α β) : Prop :=
  pySorted m1._list = pySorted m2._list

end SortedEq

/-- Byte strings (Python `bytes`): lists of byte values. `latin-1`
decoding and encoding are mutually inverse identities on this
representation. -/
abbrev ByteStr := List Nat

/-- Python `str.lower` on latin-1 text, byte-wise: ASCII uppercase and the
latin-1 uppercase letters (except the multiplication sign 0xD7) shift down
by 32 positions; every other byte is unchanged. -/
def pyLowerByte (b : Nat) : Nat :=
  if (65 ≤ b ∧ b ≤ 90) ∨ (192 ≤ b ∧ b ≤ 222 ∧ b ≠ 215) then b + 32 else b

/-- Python `key.lower().encode("latin-1")` on a latin-1 string
represented by its bytes. -/
def pyLower (s : ByteStr) : ByteStr := s.map pyLowerByte

/-- Byte string of a latin-1 Lean string literal. -/
def bs (s : String) : ByteStr := s.toList.map Char.toNat

/-- Embedding of `starlette.datastructures.Headers` / `MutableHeaders`:
the raw list of (name, value) byte pairs. -/
structure Headers where
  _list : List (ByteStr × ByteStr)
  deriving DecidableEq

namespace Headers

/-- `Headers.__init__` from a string-keyed mapping (given by its items):
each name is lowercased and latin-1 encoded, values encoded as they are. -/
def fromMapping (headers : List (ByteStr × ByteStr)) : Headers :=
  ⟨headers.map fun p => (pyLower p.1, p.2)⟩

/-- `Headers.__init__` from a raw byte-pair list: stored as given. -/
def fromRaw (raw : List (ByteStr × ByteStr)) : Headers :=
  ⟨raw⟩

/-- `Headers.__init__` from a scope: `self._list = scope["headers"]`. -/
def fromScope (scopeHeaders : List (ByteStr × ByteStr)) : Headers :=
  ⟨scopeHeaders⟩

/-- `Headers.__getitem__`: lowercase and encode the query key, then return
the value of the first pair whose stored name equals it byte-for-byte;
`KeyError` on a missing name is `none`.  `Headers.get` returns the same
value with a default in place of the error. -/
def getitem? (h : Headers) (key : ByteStr) : Option ByteStr :=
  pyGet? h._list (pyLower key)

/-- `Headers.__contains__`: same loop over `self._list`, returning whether
any stored name equals the lowercased query key. -/
def containsKey (h : Headers) (key : ByteStr) : Bool :=
  h._list.any fun p => decide (p.1 = pyLower key)

/-- `Headers.getlist`: values of every pair matching the lowercased key. -/
def getlist (h : Headers) (key : ByteStr) : List ByteStr :=
  keepKey h._list (pyLower key)

end Headers

/-- `MutableHeaders.__setitem__` on the underlying pair list (key already
lowercased): replace the first occurrence in place with `(key, value)`,
delete every later occurrence (the source deletes the found indexes after
the first, in reverse order), or append when the key is absent. -/
def setEntry [DecidableEq α] : List (α × β) → α → β → List (α × β)
  | [], k, v => [(k, v)]
  | p :: rest, k, v =>
      if p.1 = k then (k, v) :: removeKey rest k else p :: setEntry rest k v

namespace Headers

/-- `MutableHeaders.__setitem__`. -/
def setitem (h : Headers) (key value : ByteStr) : Headers :=
  ⟨setEntry h._list (pyLower key) value⟩

/-- `MutableHeaders.__delitem__`: collect the indexes whose stored name
equals the lowercased key and delete them in reverse order; when the key
is missing nothing is deleted and no error is raised. -/
def delitem (h : Headers) (key : ByteStr) : Headers :=
  ⟨removeKey h._list (pyLower key)⟩

/-- `MutableHeaders.add_vary_header`: comma-join the new value onto any
existing `Vary` value, then assign `self["vary"]`. -/
def add_vary_header (h : Headers) (vary : ByteStr) : Headers :=
  match h.getitem? (bs "vary") with
  | some existing => h.setitem (bs "vary") (existing ++ bs ", " ++ vary)
  | none => h.setitem (bs "vary") vary

end Headers

/-- ASGI response messages: `http.response.start` carrying status and
header byte pairs, `http.response.body` carrying a chunk and the
continuation flag; `empty` is the `{}` dict that `GZipResponder`
initialises `initial_message` with. -/
inductive Message where
  | start (status : Nat) (headers : List (ByteStr × ByteStr))
  | body (body : ByteStr) (more_body : Bool)
  | empty
  deriving DecidableEq

/-- Decimal representation of a length, as the bytes of Python
`str(len(body))`. -/
def natBytes (n : Nat) : ByteStr := bs (toString n)

/-- State of `GZipResponder`: the construction parameters plus the
buffered initial message, the started flag, and the `GzipFile`/`BytesIO`
pair.  The gzip stream itself is external library code, abstracted by a
function `gz` mapping the chunks written so far and the closed flag to the
total bytes emitted into the buffer; `written`/`closed` record the calls
made, and `drained` counts the bytes already removed from the buffer by
`seek(0)`/`truncate()`, so the buffer holds `(gz written closed).drop
drained`. -/
structure GZipResponder where
  minimum_size : Nat
  initial_message : Message
  started : Bool
  written : List ByteStr
  closed : Bool
  drained : Nat
  deriving DecidableEq

/-- `GZipResponder.__init__`. -/
def GZipResponder.init (minimum_size : Nat) : GZipResponder :=
  { minimum_size, initial_message := .empty, started := false, written := [],
    closed := false, drained := 0 }

/-- `GZipResponder.send_with_gzip`: one message step, returning the new
state and the messages forwarded to `send`; `none` models the `KeyError`
raised when a branch indexes the `{}` placeholder initial message. -/
def sendWithGzip (gz : List ByteStr → Bool → ByteStr) (s : GZipResponder) :
    Message → Option (GZipResponder × List Message)
  | .start status headers =>
      some ({ s with initial_message := .start status headers }, [])
  | .body b more =>
      if s.started = false then
        if b.length < s.minimum_size ∧ more = false then
          some ({ s with started := true }, [s.initial_message, .body b more])
        else if more = false then
          match s.initial_message with
          | .start status headers =>
              let written := s.written ++ [b]
              let outBody := (gz written true).drop s.drained
              let hs :=
                ((Headers.setitem ⟨headers⟩ (bs "Content-Encoding") (bs "gzip")
                  ).setitem (bs "Content-Length") (natBytes outBody.length)
                  ).add_vary_header (bs "Accept-Encoding")
              some ({ s with started := true, written := written, closed := true },
                [.start status hs._list, .body outBody more])
          | _ => none
        else
          match s.initial_message with
          | .start status headers =>
              let hs :=
                (((Headers.setitem ⟨headers⟩ (bs "Content-Encoding") (bs "gzip")
                  ).add_vary_header (bs "Accept-Encoding")
                  ).delitem (bs "Content-Length"))
              let written := s.written ++ [b]
              let outBody := (gz written false).drop s.drained
              let s1 := { s with
                started := true, written := written,
                drained := (gz written false).length }
              some (s1, [.start status hs._list, .body outBody more])
          | _ => none
      else
        let written := s.written ++ [b]
        let closed := if more = false then true else s.closed
        let outBody := (gz written closed).drop s.drained
        some ({ s with written := written, closed := closed, drained := (gz written closed).length },
          [.body outBody more])
  | .empty => none

/-- Exceptions raised by the wrapped application, abstractly. -/
structure Exc where
  id : Nat
  deriving DecidableEq

/-- Modelled from the spec: the Response wrapper of
`starlette/responses.py` is not under `src/`; per the spec a response,
when awaited, emits exactly one start message carrying its status and
headers followed by body messages whose last has `more_body` false — here
a single final chunk.  The concrete headers a plain-text response carries
are not specified and are modelled as the empty list. -/
def responseMessages (status : Nat) (content : ByteStr) : List Message :=
  [.start status [], .body content false]

/-- `ServerErrorMiddleware.error_response`:
`PlainTextResponse("Internal Server Error", status_code=500)`. -/
def error_response : List Message :=
  responseMessages 500 (bs "Internal Server Error")

/-- Whether a message is an `http.response.start` message, as tested by
the intercepting `_send`. -/
def isStartMessage : Message → Bool
  | .start _ _ => true
  | _ => false

/-- One full pass of `ServerErrorMiddleware.__call__`: the wrapped
application is abstracted by the messages it sends downstream through the
intercepting `_send` and by the exception it raises, if any; a custom
handler and the debug response are abstracted by the message lists their
responses send when awaited.  Returns the messages reaching the transport
and the exception the middleware re-raises, if any. -/
def serverErrorRun (debug : Bool) (handler : Option (Exc → List Message))
    (debugResp : Exc → List Message) (scopeTypeHttp : Bool)
    (appSent : List Message) (appExc : Option Exc) :
    List Message × Option Exc :=
  if scopeTypeHttp = false then
    (appSent, appExc)
  else
    match appExc with
    | none => (appSent, none)
    | some exc =>
        let response_started := appSent.any isStartMessage
        let response :=
          if debug then debugResp exc
          else
            match handler with
            | none => error_response
            | some h => h exc
        if response_started = false then (appSent ++ response, some exc)
        else (appSent, some exc)

/-- Exception classes, abstractly: the base `Exception` class or any
other class. -/
inductive ExcClass where
  | base
  | derived (n : Nat)
  deriving DecidableEq

/-- Keys of the `exception_handlers` map: an integer status code or an
exception class. -/
inductive HKey where
  | status (code : Nat)
  | cls (c : ExcClass)
  deriving DecidableEq

/-- Test `key in (500, Exception)` of `build_middleware_stack`. -/
def isServerErrorKey : HKey → Bool
  | .status code => code == 500
  | .cls c => c == ExcClass.base

/-- Nested middleware chains, observed structurally: the router is the
innermost application; each layer records its class and options. `μ` is
the payload of a user middleware descriptor, `η` the handler type. -/
inductive AsgiApp (μ η : Type) where
  | router
  | serverError (handler : Option η) (debug : Bool) (app : AsgiApp μ η)
  | exceptionMw (handlers : List (HKey × η)) (debug : Bool) (app : AsgiApp μ η)
  | user (m : μ) (app : AsgiApp μ η)

/-- Middleware descriptors `Middleware(cls, **options)`. -/
inductive MwDesc (μ η : Type) where
  | serverErrorD (handler : Option η) (debug : Bool)
  | exceptionD (handlers : List (HKey × η)) (debug : Bool)
  | userD (m : μ)

/-- `cls(app=app, **options)`. -/
def wrapApp {μ η : Type} (app : AsgiApp μ η) : MwDesc μ η → AsgiApp μ η
  | .serverErrorD h d => .serverError h d app
  | .exceptionD hs d => .exceptionMw hs d app
  | .userD m => .user m app

/-- Value assigned to `error_handler` by the partition loop: the last
entry whose key is 500 or the base exception class, if any. -/
def errHandlerOf {η : Type} : List (HKey × η) → Option η
  | [] => none
  | p :: rest =>
      match errHandlerOf rest with
      | some v => some v
      | none => if isServerErrorKey p.1 then some p.2 else none

/-- `Starlette.build_middleware_stack`: partition `exception_handlers`
into the generic-server-error handler and the rest, build the combined
descriptor list `[ServerErrorMiddleware] + user_middleware +
[ExceptionMiddleware]`, and wrap the router with each descriptor from last
to first. -/
def build_middleware_stack {μ η : Type} (exception_handlers : List (HKey × η))
    (user_middleware : List μ) (debug : Bool) : AsgiApp μ η :=
  let part := exception_handlers.foldl
    (fun acc p =>
      if isServerErrorKey p.1 then (some p.2, acc.2) else (acc.1, acc.2 ++ [p]))
    ((none : Option η), ([] : List (HKey × η)))
  let middleware := [MwDesc.serverErrorD part.1 debug]
    ++ user_middleware.map MwDesc.userD
    ++ [MwDesc.exceptionD part.2 debug]
  middleware.reverse.foldl wrapApp AsgiApp.router

section AssocLemmas

variable [DecidableEq α]

theorem pyGet?_append (a b : List (α × β)) (k : α) :
    pyGet? (a ++ b) k =
      match pyGet? a k with
      | some v => some v
      | none => pyGet? b k := by
  induction a with
  | nil => simp [pyGet?]
  | cons p rest ih =>
      by_cases h : p.1 = k
      · simp [pyGet?, h]
      · simp [pyGet?, h, ih]

theorem lastVal_cons (p : α × β) (rest : List (α × β)) (k : α) :
    lastVal (p :: rest) k =
      match lastVal rest k with
      | some w => some w
      | none => if p.1 = k then some p.2 else none := rfl

theorem pyGet?_pyInsert (d : List (α × β)) (k : α) (v : β) (k' : α) :
    pyGet? (pyInsert d k v) k' = if k = k' then some v else pyGet? d k' := by
  induction d with
  | nil =>
      by_cases h : k = k' <;> simp [pyInsert, pyGet?, h]
  | cons p rest ih =>
      simp only [pyInsert]
      by_cases h1 : p.1 = k
      · rw [if_pos h1]
        by_cases h2 : k = k'
        · have hp : p.1 = k' := h1.trans h2
          simp [pyGet?, hp, h2]
        · have hp : ¬p.1 = k' := by rw [h1]; exact h2
          simp [pyGet?, hp, h2]
      · rw [if_neg h1]
        by_cases h3 : p.1 = k'
        · have hk : ¬k = k' := fun he => h1 (he ▸ h3)
          rw [if_neg hk]
          simp [pyGet?, h3]
        · simp [pyGet?, h3, ih]

theorem lastVal_append (a b : List (α × β)) (k : α) :
    lastVal (a ++ b) k =
      match lastVal b k with
      | some w => some w
      | none => lastVal a k := by
  induction a with
  | nil =>
      cases h : lastVal b k <;> simp [lastVal, h]
  | cons p rest ih =>
      rw [List.cons_append, lastVal_cons, ih, lastVal_cons]
      cases lastVal b k <;> cases lastVal rest k <;> rfl

theorem pyGet?_removeKey (l : List (α × β)) (k k' : α) :
    pyGet? (removeKey l k) k' = if k = k' then none else pyGet? l k' := by
  induction l with
  | nil => by_cases h : k = k' <;> simp [removeKey, pyGet?, h]
  | cons p rest ih =>
      simp only [removeKey]
      by_cases h1 : p.1 = k
      · rw [if_pos h1, ih]
        by_cases h2 : k = k'
        · simp [h2]
        · have hp : ¬p.1 = k' := by rw [h1]; exact h2
          simp [pyGet?, h2, hp]
      · rw [if_neg h1]
        by_cases h3 : p.1 = k'
        · have hk : ¬k = k' := fun he => h1 (he ▸ h3)
          rw [if_neg hk]
          simp [pyGet?, h3]
        · simp [pyGet?, h3, ih]

theorem lastVal_removeKey (l : List (α × β)) (k k' : α) :
    lastVal (removeKey l k) k' = if k = k' then none else lastVal l k' := by
  induction l with
  | nil => by_cases h : k = k' <;> simp [removeKey, lastVal, h]
  | cons p rest ih =>
      simp only [removeKey]
      by_cases h1 : p.1 = k
      · rw [if_pos h1, ih, lastVal_cons]
        by_cases h2 : k = k'
        · simp [h2]
        · have hp : ¬p.1 = k' := by rw [h1]; exact h2
          rw [if_neg h2, if_neg h2]
          cases lastVal rest k' <;> simp [hp]
      · rw [if_neg h1, lastVal_cons, ih, lastVal_cons]
        by_cases h2 : k = k'
        · have hp : ¬p.1 = k' := h2 ▸ h1
          rw [if_pos h2, if_pos h2]
          simp [hp]
        · rw [if_neg h2, if_neg h2]

theorem lastVal_cons_eq_none (p : α × β) (rest : List (α × β)) (k : α) :
    lastVal (p :: rest) k = none ↔ lastVal rest k = none ∧ p.1 ≠ k := by
  rw [lastVal_cons]
  cases lastVal rest k with
  | some w => simp
  | none =>
      by_cases hp : p.1 = k <;> simp [hp]

theorem lastVal_eq_none_iff (l : List (α × β)) (k : α) :
    lastVal l k = none ↔ ∀ p ∈ l, p.1 ≠ k := by
  induction l with
  | nil => simp [lastVal]
  | cons p rest ih =>
      rw [lastVal_cons_eq_none, ih]
      constructor
      · rintro ⟨hall, hp⟩ q hq
        rcases List.mem_cons.mp hq with rfl | hq
        · exact hp
        · exact hall q hq
      · intro hall
        exact ⟨fun q hq => hall q (List.mem_cons_of_mem _ hq),
          hall p (List.mem_cons_self _ _)⟩

theorem pyGet?_eq_none_iff (l : List (α × β)) (k : α) :
    pyGet? l k = none ↔ ∀ p ∈ l, p.1 ≠ k := by
  induction l with
  | nil => simp [pyGet?]
  | cons p rest ih =>
      by_cases hp : p.1 = k
      · simp only [pyGet?, if_pos hp]
        constructor
        · intro h; exact absurd h (by simp)
        · intro hall; exact absurd hp (hall p (List.mem_cons_self _ _))
      · rw [show pyGet? (p :: rest) k = pyGet? rest k by simp [pyGet?, hp], ih]
        constructor
        · intro hall q hq
          rcases List.mem_cons.mp hq with rfl | hq
          · exact hp
          · exact hall q hq
        · intro hall q hq
          exact hall q (List.mem_cons_of_mem _ hq)

theorem lastVal_map_const (k : α) (v : β) (vs : List β) (k' : α) :
    lastVal ((v :: vs).map fun w => (k, w)) k' =
      if k = k' then some ((v :: vs).getLast (by simp)) else none := by
  induction vs generalizing v with
  | nil => by_cases h : k = k' <;> simp [lastVal, h]
  | cons w ws ih =>
      rw [List.map_cons, lastVal_cons]
      have hws := ih w
      rw [List.map_cons] at hws ⊢
      rw [hws]
      rw [show ((v :: w :: ws).getLast (by simp))
            = ((w :: ws).getLast (by simp)) from (List.getLast_cons (by simp))]
      by_cases h : k = k' <;> simp [h]

theorem keys_pyInsert (d : List (α × β)) (k : α) (v : β) :
    (pyInsert d k v).map Prod.fst =
      if (pyGet? d k).isSome then d.map Prod.fst else d.map Prod.fst ++ [k] := by
  induction d with
  | nil => simp [pyInsert, pyGet?]
  | cons p rest ih =>
      by_cases h : p.1 = k
      · simp [pyInsert, pyGet?, h]
      · simp only [pyInsert, pyGet?, if_neg h, List.map_cons]
        rw [ih]
        by_cases h2 : (pyGet? rest k).isSome <;> simp [h2]

theorem nodup_keys_pyInsert (d : List (α × β)) (k : α) (v : β)
    (h : (d.map Prod.fst).Nodup) : ((pyInsert d k v).map Prod.fst).Nodup := by
  cases hs : pyGet? d k with
  | some w =>
      rw [keys_pyInsert, hs]
      simpa using h
  | none =>
      rw [keys_pyInsert, hs]
      have hk : k ∉ d.map Prod.fst := by
        intro hmem
        rcases List.mem_map.mp hmem with ⟨p, hp, hpk⟩
        exact (pyGet?_eq_none_iff d k).mp hs p hp hpk
      simp [List.nodup_append, h, hk]

theorem removeKey_sublist (l : List (α × β)) (k : α) :
    List.Sublist (removeKey l k) l := by
  induction l with
  | nil => simp [removeKey]
  | cons p rest ih =>
      simp only [removeKey]
      by_cases h : p.1 = k
      · rw [if_pos h]; exact ih.cons _
      · rw [if_neg h]; exact ih.cons₂ _

theorem nodup_keys_removeKey (l : List (α × β)) (k : α)
    (h : (l.map Prod.fst).Nodup) : ((removeKey l k).map Prod.fst).Nodup :=
  h.sublist ((removeKey_sublist l k).map Prod.fst)

theorem pyGet?_foldl_insert (l : List (α × β)) (d0 : List (α × β)) (k : α) :
    pyGet? (l.foldl (fun d p => pyInsert d p.1 p.2) d0) k =
      match lastVal l k with
      | some w => some w
      | none => pyGet? d0 k := by
  induction l generalizing d0 with
  | nil => simp [lastVal]
  | cons p rest ih =>
      rw [List.foldl_cons, ih, lastVal_cons, pyGet?_pyInsert]
      cases lastVal rest k with
      | some w => rfl
      | none => by_cases h : p.1 = k <;> simp [h]

theorem nodup_keys_foldl_insert (l : List (α × β)) (d0 : List (α × β))
    (h : (d0.map Prod.fst).Nodup) :
    ((l.foldl (fun d p => pyInsert d p.1 p.2) d0).map Prod.fst).Nodup := by
  induction l generalizing d0 with
  | nil => simpa using h
  | cons p rest ih => exact ih _ (nodup_keys_pyInsert _ _ _ h)

theorem pyGet?_pyFromList (items : List (α × β)) (k : α) :
    pyGet? (pyFromList items) k = lastVal items k := by
  rw [show pyFromList items
        = items.foldl (fun d p => pyInsert d p.1 p.2) [] from rfl,
    pyGet?_foldl_insert]
  cases lastVal items k <;> simp [pyGet?]

theorem lastVal_eq_pyGet?_of_nodup (d : List (α × β)) (k : α)
    (h : (d.map Prod.fst).Nodup) : lastVal d k = pyGet? d k := by
  induction d with
  | nil => rfl
  | cons p rest ih =>
      rw [List.map_cons, List.nodup_cons] at h
      rw [lastVal_cons]
      by_cases hp : p.1 = k
      · have : lastVal rest k = none := by
          rw [lastVal_eq_none_iff]
          intro q hq hqk
          apply h.1
          have hmem : q.1 ∈ List.map Prod.fst rest := List.mem_map_of_mem Prod.fst hq
          rwa [hqk, ← hp] at hmem
        rw [this]
        simp [pyGet?, hp]
      · rw [ih h.2]
        simp only [pyGet?, if_neg hp]
        cases pyGet? rest k <;> simp

theorem lastVal_removeKeysIn (l d : List (α × β)) (k : α) :
    lastVal (removeKeysIn l d) k =
      if (pyGet? d k).isSome then none else lastVal l k := by
  induction l with
  | nil => by_cases h : (pyGet? d k).isSome <;> simp [removeKeysIn, lastVal, h]
  | cons p rest ih =>
      simp only [removeKeysIn]
      by_cases hp : (pyGet? d p.1).isSome
      · rw [if_pos hp, ih]
        by_cases hk : (pyGet? d k).isSome
        · simp [hk]
        · have hpk : p.1 ≠ k := fun he => hk (he ▸ hp)
          rw [if_neg hk, if_neg hk, lastVal_cons]
          cases lastVal rest k <;> simp [hpk]
      · rw [if_neg hp, lastVal_cons, ih]
        by_cases hk : (pyGet? d k).isSome
        · have hpk : p.1 ≠ k := fun he => hp (he ▸ hk)
          simp [hk, hpk]
        · simp only [hk, if_false]
          exact (lastVal_cons p rest k).symm

end AssocLemmas

section MDInvariant

variable [DecidableEq α]

theorem MDInv_fromList (items : List (α × β)) :
    MDInv (MultiDict.fromList items) := by
  constructor
  · intro k
    exact pyGet?_pyFromList items k
  · exact nodup_keys_foldl_insert items [] (by simp)

theorem MDInv_setlist (m : MultiDict α β) (k : α) (vs : List β)
    (h : MDInv m) : MDInv (m.setlist k vs) := by
  obtain ⟨hget, hnodup⟩ := h
  cases vs with
  | nil =>
      refine ⟨fun k' => ?_, nodup_keys_removeKey _ _ hnodup⟩
      rw [MultiDict.setlist]
      simp only
      rw [pyGet?_removeKey, lastVal_removeKey]
      by_cases hk : k = k' <;> simp [hk, hget]
  | cons v tl =>
      refine ⟨fun k' => ?_, nodup_keys_pyInsert _ _ _ hnodup⟩
      rw [MultiDict.setlist]
      simp only
      rw [pyGet?_pyInsert, lastVal_append, lastVal_map_const, lastVal_removeKey]
      by_cases hk : k = k' <;> simp [hk, hget]

theorem MDInv_removeBoth (m : MultiDict α β) (k : α) (h : MDInv m) :
    MDInv ⟨removeKey m._list k, removeKey m._dict k⟩ := by
  obtain ⟨hget, hnodup⟩ := h
  refine ⟨fun k' => ?_, nodup_keys_removeKey _ _ hnodup⟩
  simp only
  rw [pyGet?_removeKey, lastVal_removeKey]
  by_cases hk : k = k' <;> simp [hk, hget]

theorem MDInv_appendBoth (m : MultiDict α β) (k : α) (v : β) (h : MDInv m) :
    MDInv ⟨m._list ++ [(k, v)], pyInsert m._dict k v⟩ := by
  obtain ⟨hget, hnodup⟩ := h
  refine ⟨fun k' => ?_, nodup_keys_pyInsert _ _ _ hnodup⟩
  simp only
  rw [pyGet?_pyInsert, lastVal_append]
  have hsingle : lastVal [(k, v)] k' = if k = k' then some v else none := by
    simp [lastVal]
  rw [hsingle]
  by_cases hk : k = k' <;> simp [hk, hget]

theorem MDInv_popitem (m : MultiDict α β) (h : MDInv m) : MDInv m.popitem := by
  obtain ⟨hget, hnodup⟩ := h
  rw [MultiDict.popitem]
  cases hd : m._dict.getLast? with
  | none => exact ⟨hget, hnodup⟩
  | some p =>
      have hne : m._dict ≠ [] := by
        intro he
        rw [he] at hd
        exact absurd hd (by simp)
      have hsplit : m._dict.dropLast ++ [m._dict.getLast hne] = m._dict :=
        List.dropLast_append_getLast hne
      have hp : m._dict.getLast hne = p := by
        have := List.getLast?_eq_getLast m._dict hne
        rw [hd] at this
        exact (Option.some.injEq _ _).mp this.symm
      rw [hp] at hsplit
      have hkeys : (m._dict.dropLast.map Prod.fst).Nodup ∧
          p.1 ∉ m._dict.dropLast.map Prod.fst := by
        have := hnodup
        rw [← hsplit, List.map_append, List.nodup_append] at this
        exact ⟨this.1, fun hmem => this.2.2 hmem (by simp)⟩
      refine ⟨fun k' => ?_, hnodup.sublist
        ((List.dropLast_sublist m._dict).map Prod.fst)⟩
      simp only
      rw [lastVal_removeKey]
      by_cases hk : p.1 = k'
      · rw [if_pos hk]
        rw [pyGet?_eq_none_iff]
        intro q hq hqk
        apply hkeys.2
        have hmem : q.1 ∈ List.map Prod.fst m._dict.dropLast :=
          List.mem_map_of_mem Prod.fst hq
        rwa [hqk, ← hk] at hmem
      · rw [if_neg hk, ← hget k']
        conv_rhs => rw [← hsplit]
        rw [pyGet?_append]
        cases pyGet? m._dict.dropLast k' with
        | some w => rfl
        | none => simp [pyGet?, hk]

theorem MDInv_update (m : MultiDict α β) (items : List (α × β)) (h : MDInv m) :
    MDInv (m.updateItems items) := by
  obtain ⟨hget, hnodup⟩ := h
  obtain ⟨hvget, hvnodup⟩ := MDInv_fromList items
  rw [MultiDict.updateItems]
  refine ⟨fun k => ?_, nodup_keys_foldl_insert _ _ hnodup⟩
  simp only [MultiDict.multi_items]
  rw [show pyDictUpdate m._dict (MultiDict.fromList items)._dict
        = (MultiDict.fromList items)._dict.foldl
            (fun d p => pyInsert d p.1 p.2) m._dict from rfl,
    pyGet?_foldl_insert, lastVal_append,
    lastVal_eq_pyGet?_of_nodup _ _ hvnodup, hvget,
    lastVal_removeKeysIn]
  cases hv : lastVal (MultiDict.fromList items)._list k with
  | some w =>
      have : pyGet? (MultiDict.fromList items)._dict k = some w := by
        rw [hvget]; exact hv
      simp [this]
  | none =>
      have : pyGet? (MultiDict.fromList items)._dict k = none := by
        rw [hvget]; exact hv
      simp [this, hget]

theorem MDInv_applyMut (m : MultiDict α β) (mu : Mut α β) (h : MDInv m) :
    MDInv (applyMut m mu) := by
  cases mu with
  | set k v => exact MDInv_setlist m k [v] h
  | setlist k vs => exact MDInv_setlist m k vs h
  | append k v => exact MDInv_appendBoth m k v h
  | setdefault k d =>
      rw [applyMut, MultiDict.setdefault]
      by_cases hk : (pyGet? m._dict k).isSome
      · rw [if_pos hk]
        exact h
      · rw [if_neg hk]
        exact MDInv_appendBoth m k d h
  | update items => exact MDInv_update m items h
  | pop k => exact MDInv_removeBoth m k h
  | popitem => exact MDInv_popitem m h
  | poplist k => exact MDInv_removeBoth m k h
  | delete k => exact MDInv_removeBoth m k h
  | clear => exact ⟨fun k => rfl, List.nodup_nil⟩

theorem MDInv_applyMuts (m : MultiDict α β) (muts : List (Mut α β))
    (h : MDInv m) : MDInv (applyMuts m muts) := by
  induction muts generalizing m with
  | nil => exact h
  | cons mu rest ih => exact ih _ (MDInv_applyMut m mu h)

end MDInvariant

section KeepKeyLemmas

variable [DecidableEq α]

theorem keepKey_append (a b : List (α × β)) (k : α) :
    keepKey (a ++ b) k = keepKey a k ++ keepKey b k := by
  induction a with
  | nil => rfl
  | cons p rest ih => by_cases h : p.1 = k <;> simp [keepKey, h, ih]

theorem keepKey_removeKey_self (l : List (α × β)) (k : α) :
    keepKey (removeKey l k) k = [] := by
  induction l with
  | nil => rfl
  | cons p rest ih => by_cases h : p.1 = k <;> simp [removeKey, keepKey, h, ih]

end KeepKeyLemmas

section SortedEq

variable [LinearOrder α] [LinearOrder β]

theorem pyPairLe_iff (p q : α × β) :
    pyPairLe p q = true ↔ p.1 < q.1 ∨ (p.1 = q.1 ∧ p.2 ≤ q.2) := by
  simp [pyPairLe]

theorem pyPairLe_trans (a b c : α × β) :
    pyPairLe a b → pyPairLe b c → pyPairLe a c := by
  intro h1 h2
  rw [pyPairLe_iff] at *
  rcases h1 with h1 | ⟨e1, h1⟩
  · rcases h2 with h2 | ⟨e2, h2⟩
    · exact Or.inl (h1.trans h2)
    · exact Or.inl (e2 ▸ h1)
  · rcases h2 with h2 | ⟨e2, h2⟩
    · exact Or.inl (e1 ▸ h2)
    · exact Or.inr ⟨e1.trans e2, h1.trans h2⟩

theorem pyPairLe_total (a b : α × β) : pyPairLe a b || pyPairLe b a := by
  rw [Bool.or_eq_true, pyPairLe_iff, pyPairLe_iff]
  rcases lt_trichotomy a.1 b.1 with h | h | h
  · exact Or.inl (Or.inl h)
  · rcases le_total a.2 b.2 with h2 | h2
    · exact Or.inl (Or.inr ⟨h, h2⟩)
    · exact Or.inr (Or.inr ⟨h.symm, h2⟩)
  · exact Or.inr (Or.inl h)

theorem pyPairLe_antisymm (a b : α × β) :
    pyPairLe a b = true → pyPairLe b a = true → a = b := by
  intro h1 h2
  rw [pyPairLe_iff] at h1 h2
  rcases h1 with h1 | ⟨e1, h1⟩
  · rcases h2 with h2 | ⟨e2, h2⟩
    · exact absurd h2 (lt_asymm h1)
    · exact absurd (e2 ▸ h1) (lt_irrefl _)
  · rcases h2 with h2 | ⟨e2, h2⟩
    · exact absurd (e1 ▸ h2) (lt_irrefl _)
    · exact Prod.ext e1 (le_antisymm h1 h2)

theorem pySorted_perm (l : List (α × β)) : List.Perm (pySorted l) l :=
  List.mergeSort_perm l pyPairLe

theorem pySorted_sorted (l : List (α × β)) :
    List.Sorted (fun p q => pyPairLe p q = true) (pySorted l) :=
  List.sorted_mergeSort pyPairLe_trans pyPairLe_total l

end SortedEq

section SetEntryLemmas

variable [DecidableEq α]

theorem removeKey_of_absent (l : List (α × β)) (k : α)
    (h : ∀ p ∈ l, p.1 ≠ k) : removeKey l k = l := by
  induction l with
  | nil => rfl
  | cons p rest ih =>
      rw [removeKey, if_neg (h p (List.mem_cons_self _ _)),
        ih fun q hq => h q (List.mem_cons_of_mem _ hq)]

theorem setEntry_of_absent (l : List (α × β)) (k : α) (v : β)
    (h : ∀ p ∈ l, p.1 ≠ k) : setEntry l k v = l ++ [(k, v)] := by
  induction l with
  | nil => rfl
  | cons p rest ih =>
      rw [setEntry, if_neg (h p (List.mem_cons_self _ _)),
        ih fun q hq => h q (List.mem_cons_of_mem _ hq), List.cons_append]

theorem setEntry_append_singleton (l : List (α × β)) (k : α) (w v : β)
    (h : ∀ p ∈ l, p.1 ≠ k) : setEntry (l ++ [(k, w)]) k v = l ++ [(k, v)] := by
  induction l with
  | nil => simp [setEntry, removeKey]
  | cons p rest ih =>
      rw [List.cons_append, setEntry, if_neg (h p (List.mem_cons_self _ _)),
        ih fun q hq => h q (List.mem_cons_of_mem _ hq), List.cons_append]

theorem pyGet?_append_singleton_absent (l : List (α × β)) (k : α) (w : β)
    (h : ∀ p ∈ l, p.1 ≠ k) : pyGet? (l ++ [(k, w)]) k = some w := by
  rw [pyGet?_append, (pyGet?_eq_none_iff l k).mpr h]
  simp [pyGet?]

theorem keepKey_of_absent (l : List (α × β)) (k : α)
    (h : ∀ p ∈ l, p.1 ≠ k) : keepKey l k = [] := by
  induction l with
  | nil => rfl
  | cons p rest ih =>
      rw [keepKey, if_neg (h p (List.mem_cons_self _ _)),
        ih fun q hq => h q (List.mem_cons_of_mem _ hq)]

end SetEntryLemmas

/-- C4 (counterexample): a `Headers` built from raw byte pairs stores
names verbatim, and every lookup lowercases only the query key before an
exact byte comparison, so a header stored under the non-lowercase raw name
`b"X-Foo"` is not found even by the identically-cased query. -/
theorem C4_raw_case_counterexample :
    (Headers.fromRaw [(bs "X-Foo", bs "v")]).getitem? (bs "X-Foo") = none
    ∧ (Headers.fromRaw [(bs "X-Foo", bs "v")]).containsKey (bs "X-Foo") = false
    ∧ (Headers.fromRaw [(bs "X-Foo", bs "v")])._list = [(bs "X-Foo", bs "v")] := by
  decide

/-- C4 (amended): lookups lowercase the query key, so `get`, indexed
access and membership agree across any casing of the query
(`headers.get("X-Foo")` equals `headers.get("x-foo")`) for instances built
from a mapping, from raw pairs or from a scope; headers built from a
string mapping additionally have their stored names lowercased at
construction, so any header of the mapping is found whatever the case of
its stored name; raw- and scope-built instances match stored names
byte-exactly against the lowercased query. -/
theorem C4_lookups_lowercase_query (m raw : List (ByteStr × ByteStr))
    (k k' q : ByteStr) (hk : pyLower k = pyLower k') :
    (Headers.fromMapping m).getitem? k = (Headers.fromMapping m).getitem? k'
    ∧ (Headers.fromRaw raw).getitem? k = (Headers.fromRaw raw).getitem? k'
    ∧ (Headers.fromScope raw).getitem? k = (Headers.fromScope raw).getitem? k'
    ∧ (Headers.fromMapping m).containsKey k
        = (Headers.fromMapping m).containsKey k'
    ∧ (Headers.fromRaw raw).containsKey k = (Headers.fromRaw raw).containsKey k'
    ∧ (Headers.fromScope raw).containsKey k
        = (Headers.fromScope raw).containsKey k'
    ∧ ((∃ p ∈ m, pyLower p.1 = pyLower q) →
        (Headers.fromMapping m).containsKey q = true) := by
  refine ⟨?_, ?_, ?_, ?_, ?_, ?_, ?_⟩
  · rw [Headers.getitem?, Headers.getitem?, hk]
  · rw [Headers.getitem?, Headers.getitem?, hk]
  · rw [Headers.getitem?, Headers.getitem?, hk]
  · rw [Headers.containsKey, Headers.containsKey, hk]
  · rw [Headers.containsKey, Headers.containsKey, hk]
  · rw [Headers.containsKey, Headers.containsKey, hk]
  · rintro ⟨p, hp, hlow⟩
    rw [Headers.containsKey, List.any_eq_true]
    exact ⟨(pyLower p.1, p.2),
      List.mem_map_of_mem (fun r => (pyLower r.1, r.2)) hp, by simp [hlow]⟩

/-- C4 (witness): queries `"X-Foo"` and `"x-foo"` agree on a
mapping-built, a raw-built and a scope-built instance, and the header
stored as `"X-Foo"` in the mapping is found. -/
theorem C4_lookups_lowercase_query_witness :
    pyLower (bs "X-Foo") = pyLower (bs "x-foo")
    ∧ ((Headers.fromMapping [(bs "X-Foo", bs "v")]).getitem? (bs "X-Foo")
        = (Headers.fromMapping [(bs "X-Foo", bs "v")]).getitem? (bs "x-foo")
      ∧ (Headers.fromRaw [(bs "a", bs "1")]).getitem? (bs "X-Foo")
        = (Headers.fromRaw [(bs "a", bs "1")]).getitem? (bs "x-foo")
      ∧ (Headers.fromScope [(bs "a", bs "1")]).getitem? (bs "X-Foo")
        = (Headers.fromScope [(bs "a", bs "1")]).getitem? (bs "x-foo")
      ∧ (Headers.fromMapping [(bs "X-Foo", bs "v")]).containsKey (bs "X-Foo")
        = (Headers.fromMapping [(bs "X-Foo", bs "v")]).containsKey (bs "x-foo")
      ∧ (Headers.fromRaw [(bs "a", bs "1")]).containsKey (bs "X-Foo")
        = (Headers.fromRaw [(bs "a", bs "1")]).containsKey (bs "x-foo")
      ∧ (Headers.fromScope [(bs "a", bs "1")]).containsKey (bs "X-Foo")
        = (Headers.fromScope [(bs "a", bs "1")]).containsKey (bs "x-foo")
      ∧ ((∃ p ∈ [(bs "X-Foo", bs "v")], pyLower p.1 = pyLower (bs "X-Foo")) →
          (Headers.fromMapping [(bs "X-Foo", bs "v")]).containsKey (bs "X-Foo")
            = true)) :=
  ⟨by decide,
    C4_lookups_lowercase_query [(bs "X-Foo", bs "v")] [(bs "a", bs "1")]
      (bs "X-Foo") (bs "x-foo") (bs "X-Foo") (by decide)⟩

/-- C8: on a `MutableHeaders` with no prior `Vary` entry, calling
`add_vary_header("Accept-Encoding")` twice appends exactly one `vary` line
whose value is the literal comma-join
`"Accept-Encoding, Accept-Encoding"`: the existing value is joined, never
deduplicated, and no second line is created. -/
theorem C8_add_vary_header_joins (h : Headers)
    (hmiss : ∀ p ∈ h._list, p.1 ≠ bs "vary") :
    ((h.add_vary_header (bs "Accept-Encoding")).add_vary_header
        (bs "Accept-Encoding"))._list
      = h._list ++ [(bs "vary", bs "Accept-Encoding, Accept-Encoding")]
    ∧ ((h.add_vary_header (bs "Accept-Encoding")).add_vary_header
        (bs "Accept-Encoding")).getlist (bs "vary")
      = [bs "Accept-Encoding, Accept-Encoding"] := by
  have hlowv : pyLower (bs "vary") = bs "vary" := by decide
  have hjoin : bs "Accept-Encoding" ++ bs ", " ++ bs "Accept-Encoding"
      = bs "Accept-Encoding, Accept-Encoding" := by decide
  have hget1 : h.getitem? (bs "vary") = none := by
    rw [Headers.getitem?, hlowv]
    exact (pyGet?_eq_none_iff _ _).mpr hmiss
  have h1 : h.add_vary_header (bs "Accept-Encoding")
      = ⟨h._list ++ [(bs "vary", bs "Accept-Encoding")]⟩ := by
    simp only [Headers.add_vary_header, hget1]
    rw [Headers.setitem, hlowv, setEntry_of_absent _ _ _ hmiss]
  have hget2 : (⟨h._list ++ [(bs "vary", bs "Accept-Encoding")]⟩ :
      Headers).getitem? (bs "vary") = some (bs "Accept-Encoding") := by
    rw [Headers.getitem?, hlowv]
    exact pyGet?_append_singleton_absent _ _ _ hmiss
  have h2 : ((h.add_vary_header (bs "Accept-Encoding")).add_vary_header
      (bs "Accept-Encoding"))._list
      = h._list ++ [(bs "vary", bs "Accept-Encoding, Accept-Encoding")] := by
    rw [h1]
    simp only [Headers.add_vary_header, hget2]
    rw [Headers.setitem, hlowv]
    show setEntry (h._list ++ [(bs "vary", bs "Accept-Encoding")]) (bs "vary")
        (bs "Accept-Encoding" ++ bs ", " ++ bs "Accept-Encoding")
      = h._list ++ [(bs "vary", bs "Accept-Encoding, Accept-Encoding")]
    rw [setEntry_append_singleton _ _ _ _ hmiss, hjoin]
  refine ⟨h2, ?_⟩
  rw [Headers.getlist, h2, hlowv, keepKey_append, keepKey_of_absent _ _ hmiss]
  simp [keepKey]

/-- C8 (witness): the statement at a `MutableHeaders` holding one
unrelated `content-type` line. -/
theorem C8_add_vary_header_joins_witness :
    (∀ p ∈ (Headers.fromRaw [(bs "content-type", bs "text")])._list,
        p.1 ≠ bs "vary")
    ∧ ((((Headers.fromRaw [(bs "content-type", bs "text")]).add_vary_header
          (bs "Accept-Encoding")).add_vary_header (bs "Accept-Encoding"))._list
        = (Headers.fromRaw [(bs "content-type", bs "text")])._list
          ++ [(bs "vary", bs "Accept-Encoding, Accept-Encoding")]
      ∧ (((Headers.fromRaw [(bs "content-type", bs "text")]).add_vary_header
          (bs "Accept-Encoding")).add_vary_header
            (bs "Accept-Encoding")).getlist (bs "vary")
        = [bs "Accept-Encoding, Accept-Encoding"]) :=
  ⟨by decide,
    C8_add_vary_header_joins (Headers.fromRaw [(bs "content-type", bs "text")])
      (by decide)⟩

/-- C10: deleting a key with no entry under its lowercased byte form from
a `MutableHeaders` is a harmless no-op: no error is raised (`delitem` is
total) and the header list is unchanged. -/
theorem C10_delitem_missing_noop (h : Headers) (k : ByteStr)
    (hmiss : ∀ p ∈ h._list, p.1 ≠ pyLower k) : h.delitem k = h := by
  cases h with
  | mk l => rw [Headers.delitem, removeKey_of_absent _ _ hmiss]

/-- C10 (witness): deleting `"Content-Length"` from headers that carry
only `content-type`. -/
theorem C10_delitem_missing_noop_witness :
    (∀ p ∈ (Headers.fromRaw [(bs "content-type", bs "text")])._list,
        p.1 ≠ pyLower (bs "Content-Length"))
    ∧ (Headers.fromRaw [(bs "content-type", bs "text")]).delitem
        (bs "Content-Length")
      = Headers.fromRaw [(bs "content-type", bs "text")] :=
  ⟨by decide,
    C10_delitem_missing_noop (Headers.fromRaw [(bs "content-type", bs "text")])
      (bs "Content-Length") (by decide)⟩

/-- C3 (counterexample): on `MultiDict([(0, 0), (1, 1)])`, `m[0] = 5`
leaves the pair list `[(1, 1), (0, 5)]` — the surviving `(0, 5)` entry sits
at the end, not at position 0, the position of the first prior occurrence
of the key. -/
theorem C3_set_position_counterexample :
    ((MultiDict.fromList [((0 : Nat), (0 : Nat)), (1, 1)]).setitem 0 5)._list
        = [(1, 1), (0, 5)]
    ∧ ((MultiDict.fromList [((0 : Nat), (0 : Nat)), (1, 1)]).setitem 0 5)._list
        ≠ [(0, 5), (1, 1)] := by
  decide

/-- C3 (amended): for every MultiDict `m` and key `k` already present,
after `m[k] = v` lookup of `k` yields `v`, `getlist k` has exactly the one
entry `[v]`, and the pair list is the old list with every `k` pair removed
and the single `(k, v)` entry appended at the end, all other pairs keeping
their relative order. -/
theorem C3_setitem_replaces_all_and_appends [DecidableEq α]
    (m : MultiDict α β) (k : α) (v : β) (hk : m.containsKey k = true) :
    (m.setitem k v).getitem? k = some v
    ∧ (m.setitem k v).getlist k = [v]
    ∧ (m.setitem k v)._list = removeKey m._list k ++ [(k, v)] := by
  refine ⟨?_, ?_, rfl⟩
  · rw [MultiDict.setitem, MultiDict.setlist, MultiDict.getitem?]
    simp only
    rw [pyGet?_pyInsert, if_pos rfl]
    rfl
  · rw [MultiDict.setitem, MultiDict.setlist, MultiDict.getlist]
    simp only
    rw [keepKey_append, keepKey_removeKey_self]
    simp [keepKey]

/-- C3 (witness): the amended statement at `MultiDict([(0, 1)])`,
key `0`, value `2`. -/
theorem C3_setitem_witness :
    (MultiDict.fromList [((0 : Nat), (1 : Nat))]).containsKey 0 = true
    ∧ ((MultiDict.fromList [((0 : Nat), (1 : Nat))]).setitem 0 2).getitem? 0 = some 2
    ∧ ((MultiDict.fromList [((0 : Nat), (1 : Nat))]).setitem 0 2).getlist 0 = [2]
    ∧ ((MultiDict.fromList [((0 : Nat), (1 : Nat))]).setitem 0 2)._list
        = removeKey (MultiDict.fromList [((0 : Nat), (1 : Nat))])._list 0 ++ [(0, 2)] :=
  ⟨by decide, C3_setitem_replaces_all_and_appends
    (MultiDict.fromList [((0 : Nat), (1 : Nat))]) 0 2 (by decide)⟩

/-- C5: for every MultiDict reachable by construction from a pair list
followed by any sequence of mutations, the derived dict lookup
(`__getitem__` / `get`) of every key equals the value of the last pair
with that key in the insertion-ordered `_list`, and `multi_items` yields
exactly that list in its insertion order. -/
theorem C5_index_reflects_last_occurrence [DecidableEq α]
    (items : List (α × β)) (muts : List (Mut α β)) :
    (∀ k, (applyMuts (MultiDict.fromList items) muts).getitem? k
        = lastVal (applyMuts (MultiDict.fromList items) muts)._list k)
    ∧ (applyMuts (MultiDict.fromList items) muts).multi_items
        = (applyMuts (MultiDict.fromList items) muts)._list :=
  ⟨(MDInv_applyMuts (MultiDict.fromList items) muts (MDInv_fromList items)).1,
    rfl⟩

/-- C9: `ImmutableMultiDict.__eq__` (sorted comparison of the full pair
sequence) holds exactly when the two instances hold the same multiset of
(key, value) pairs, independently of insertion order. -/
theorem C9_eq_iff_same_multiset [LinearOrder α] [LinearOrder β]
    (m1 m2 : MultiDict α β) :
    mdEq m1 m2 ↔ (m1._list : Multiset (α × β)) = (m2._list : Multiset (α × β)) := by
  rw [Multiset.coe_eq_coe]
  constructor
  · intro h
    have p1 := (pySorted_perm m1._list).symm
    rw [h] at p1
    exact p1.trans (pySorted_perm m2._list)
  · intro h
    haveI : IsAntisymm (α × β) (fun p q => pyPairLe p q = true) :=
      ⟨pyPairLe_antisymm⟩
    exact List.eq_of_perm_of_sorted
      (((pySorted_perm m1._list).trans h).trans (pySorted_perm m2._list).symm)
      (pySorted_sorted m1._list) (pySorted_sorted m2._list)

/-- C7: on the first response body message, when the chunk is strictly
below the threshold and final, the buffered response-start message and the
body message are forwarded unchanged: headers untouched (no
`Content-Encoding` added) and body bytes unmodified. -/
theorem C7_small_final_passthrough (gz : List ByteStr → Bool → ByteStr)
    (minimum_size status : Nat) (headers : List (ByteStr × ByteStr))
    (b : ByteStr) (hlen : b.length < minimum_size) :
    sendWithGzip gz
      { GZipResponder.init minimum_size with
        initial_message := .start status headers }
      (.body b false)
    = some ({ GZipResponder.init minimum_size with
        initial_message := .start status headers, started := true },
      [.start status headers, .body b false]) := by
  simp [sendWithGzip, GZipResponder.init, hlen]

/-- C7 (witness): a 1-byte final body under threshold 500 passes through
unchanged. -/
theorem C7_small_final_passthrough_witness :
    ([97] : ByteStr).length < 500
    ∧ sendWithGzip (fun _ _ => [1, 2])
        { GZipResponder.init 500 with
          initial_message := .start 200 [(bs "a", bs "b")] }
        (.body [97] false)
      = some ({ GZipResponder.init 500 with
          initial_message := .start 200 [(bs "a", bs "b")], started := true },
        [.start 200 [(bs "a", bs "b")], .body [97] false]) :=
  ⟨by decide,
    C7_small_final_passthrough (fun _ _ => [1, 2]) 500 200 [(bs "a", bs "b")]
      [97] (by decide)⟩

/-- C6: on the first response body message, when the chunk is final and at
or above the threshold, exactly one response-start/body pair is sent: the
body is the gzip compression of the whole original body,
`Content-Encoding` is set to `gzip`, `Content-Length` is recomputed to the
compressed length, and the `Vary` header is updated with
`Accept-Encoding`. -/
theorem C6_first_final_large_compressed (gz : List ByteStr → Bool → ByteStr)
    (minimum_size status : Nat) (headers : List (ByteStr × ByteStr))
    (b : ByteStr) (hlen : minimum_size ≤ b.length) :
    sendWithGzip gz
      { GZipResponder.init minimum_size with
        initial_message := .start status headers }
      (.body b false)
    = some ({ GZipResponder.init minimum_size with
        initial_message := .start status headers, started := true,
        written := [b], closed := true },
      [.start status
          (((Headers.setitem ⟨headers⟩ (bs "Content-Encoding") (bs "gzip")
            ).setitem (bs "Content-Length") (natBytes (gz [b] true).length)
            ).add_vary_header (bs "Accept-Encoding"))._list,
        .body (gz [b] true) false]) := by
  simp [sendWithGzip, GZipResponder.init, Nat.not_lt.mpr hlen]

/-- C6 (witness): an empty final body with threshold 0 is compressed and
the headers rewritten, with the compressor abstracted by a constant
two-byte output. -/
theorem C6_first_final_large_compressed_witness :
    (0 : Nat) ≤ ([] : ByteStr).length
    ∧ sendWithGzip (fun _ _ => [31, 139])
        { GZipResponder.init 0 with initial_message := .start 200 [] }
        (.body [] false)
      = some ({ GZipResponder.init 0 with
          initial_message := .start 200 [],
          started := true, written := [[]], closed := true },
        [.start 200
            (((Headers.setitem ⟨[]⟩ (bs "Content-Encoding") (bs "gzip")
              ).setitem (bs "Content-Length")
                (natBytes ((fun (_ : List ByteStr) (_ : Bool) =>
                  ([31, 139] : ByteStr)) [[]] true).length)
              ).add_vary_header (bs "Accept-Encoding"))._list,
          .body ((fun (_ : List ByteStr) (_ : Bool) =>
            ([31, 139] : ByteStr)) [[]] true) false]) :=
  ⟨by decide,
    C6_first_final_large_compressed (fun _ _ => [31, 139]) 0 200 [] []
      (by decide)⟩

/-- C1: in an HTTP scope where the application raises, with debug off, no
custom handler, and no response-start message sent downstream, the
middleware sends exactly one response-start with status 500 followed by a
single `"Internal Server Error"` body; and in every configuration (debug
on or off, handler or not, HTTP or not, response started or not) the
original exception is re-raised, never swallowed. -/
theorem C1_generic_500_and_always_reraise (appSent : List Message) (e : Exc)
    (debugResp : Exc → List Message)
    (hnostart : appSent.any isStartMessage = false) :
    serverErrorRun false none debugResp true appSent (some e)
      = (appSent ++ [.start 500 [], .body (bs "Internal Server Error") false],
        some e)
    ∧ (∀ (debug : Bool) (handler : Option (Exc → List Message))
        (dr : Exc → List Message) (isHttp : Bool) (sent : List Message)
        (exc : Exc),
        (serverErrorRun debug handler dr isHttp sent (some exc)).2 = some exc) := by
  constructor
  · simp [serverErrorRun, hnostart, error_response, responseMessages]
  · intro debug handler dr isHttp sent exc
    cases isHttp with
    | false => simp [serverErrorRun]
    | true =>
        simp only [serverErrorRun]
        by_cases hrs : sent.any isStartMessage = false <;> simp [hrs]

/-- C1 (witness): an application that raised before sending anything, with
debug off and no handler. -/
theorem C1_generic_500_witness :
    (([] : List Message).any isStartMessage = false)
    ∧ (serverErrorRun false none (fun _ => []) true [] (some ⟨7⟩)
        = ([.start 500 [], .body (bs "Internal Server Error") false],
          some ⟨7⟩)
      ∧ (∀ (debug : Bool) (handler : Option (Exc → List Message))
          (dr : Exc → List Message) (isHttp : Bool) (sent : List Message)
          (exc : Exc),
          (serverErrorRun debug handler dr isHttp sent (some exc)).2
            = some exc)) :=
  ⟨by decide, C1_generic_500_and_always_reraise [] ⟨7⟩ (fun _ => []) (by decide)⟩

/-- Partition loop of `build_middleware_stack`, run from an arbitrary
accumulator: the error handler becomes the last server-error entry (seed
if none), and the other entries append in order. -/
theorem partition_foldl {η : Type} (l : List (HKey × η)) (e0 : Option η)
    (h0 : List (HKey × η)) :
    l.foldl (fun acc p =>
        if isServerErrorKey p.1 then (some p.2, acc.2)
        else (acc.1, acc.2 ++ [p])) (e0, h0)
    = (match errHandlerOf l with
        | some v => some v
        | none => e0,
      h0 ++ l.filter fun p => !isServerErrorKey p.1) := by
  induction l generalizing e0 h0 with
  | nil => simp [errHandlerOf]
  | cons p rest ih =>
      simp only [List.foldl_cons]
      by_cases hp : isServerErrorKey p.1
      · rw [if_pos hp, ih, errHandlerOf]
        cases errHandlerOf rest <;> simp [hp, List.filter_cons]
      · rw [if_neg hp, ih, errHandlerOf]
        cases errHandlerOf rest <;> simp [hp, List.filter_cons]

/-- Wrapping with the reversed user-middleware descriptors nests them in
their original order. -/
theorem foldl_wrap_userD {μ η : Type} (us : List μ) (a : AsgiApp μ η) :
    ((us.map MwDesc.userD).reverse).foldl wrapApp a
      = us.foldr (fun m acc => AsgiApp.user m acc) a := by
  induction us with
  | nil => rfl
  | cons u us ih =>
      simp only [List.map_cons, List.reverse_cons, List.foldl_append,
        List.foldl_cons, List.foldl_nil, List.foldr_cons]
      rw [ih]
      rfl

/-- C2: `build_middleware_stack` partitions the handler map so that the
last handler keyed by 500 or the base exception class becomes the
`ServerErrorMiddleware` handler and every other entry (in order) goes to
`ExceptionMiddleware`, and the resulting chain is `ServerErrorMiddleware`
wrapping the user middleware in their given order wrapping
`ExceptionMiddleware` wrapping the innermost router, built by wrapping
from the last descriptor to the first; the functional embedding leaves the
descriptor list and handler map untouched by construction. -/
theorem C2_build_middleware_stack_structure {μ η : Type}
    (exception_handlers : List (HKey × η)) (user_middleware : List μ)
    (debug : Bool) :
    build_middleware_stack exception_handlers user_middleware debug
      = .serverError (errHandlerOf exception_handlers) debug
          (user_middleware.foldr (fun m acc => AsgiApp.user m acc)
            (.exceptionMw
              (exception_handlers.filter fun p => !isServerErrorKey p.1)
              debug .router)) := by
  simp only [build_middleware_stack]
  rw [partition_foldl]
  simp only [List.nil_append, List.reverse_append, List.reverse_cons,
    List.reverse_nil, List.foldl_append, List.foldl_cons, List.foldl_nil]
  rw [foldl_wrap_userD]
  cases h : errHandlerOf exception_handlers <;> simp [wrapApp, h]
